import Mathlib

/-!
Verification development for the distributed tracing core of dd-trace-py
(Span/Tracer model, requests instrumentation wrapper, and the lambda
client-context payload propagator).

All text is modelled at the byte level: strings are `List Nat` of ASCII
byte values (each < 256), so every definition is executable and decidable.
The requests wrapper (`traced_request_func`, `apply_tags`) is translated
from `ddtrace/contrib/requests/patch.py`.  The tracer core and the payload
propagator are not present in the source tree (only their tests are), so
they are modelled from the spec where indicated.
-/

namespace DDTrace

/-- Byte string for the text custom. -/
def customKey : List Nat := [99, 117, 115, 116, 111, 109]

/-- Byte string for the reserved namespace key _datadog. -/
def datadogKey : List Nat := [95, 100, 97, 116, 97, 100, 111, 103]

/-- Byte string for the header name x-datadog-trace-id. -/
def traceIdKey : List Nat := [120, 45, 100, 97, 116, 97, 100, 111, 103, 45, 116, 114, 97, 99, 101, 45, 105, 100]

/-- Byte string for the header name x-datadog-parent-id. -/
def parentIdKey : List Nat := [120, 45, 100, 97, 116, 97, 100, 111, 103, 45, 112, 97, 114, 101, 110, 116, 45, 105, 100]

/-- Byte string for the tag key http.method. -/
def httpMethodKey : List Nat := [104, 116, 116, 112, 46, 109, 101, 116, 104, 111, 100]

/-- Byte string for the tag key http.url. -/
def httpUrlKey : List Nat := [104, 116, 116, 112, 46, 117, 114, 108]

/-- Byte string for the tag key http.status_code. -/
def httpStatusKey : List Nat := [104, 116, 116, 112, 46, 115, 116, 97, 116, 117, 115, 95, 99, 111, 100, 101]

/-- Byte string for the tag key error.msg. -/
def errorMsgKey : List Nat := [101, 114, 114, 111, 114, 46, 109, 115, 103]

/-- Byte string for the tag key aws.operation. -/
def awsOperationKey : List Nat := [97, 119, 115, 46, 111, 112, 101, 114, 97, 116, 105, 111, 110]

/-- Byte string for the operation name Invoke. -/
def invokeName : List Nat := [73, 110, 118, 111, 107, 101]

/-- Byte string for the analytics sample-rate metric key. -/
def analyticsKey : List Nat := [95, 100, 100, 49, 46, 115, 114, 46, 101, 97, 117, 115, 114]

/-- Byte string for the span name requests.request. -/
def requestsName : List Nat := [114, 101, 113, 117, 101, 115, 116, 115, 46, 114, 101, 113, 117, 101, 115, 116]

/-- Byte string for the span type http. -/
def httpType : List Nat := [104, 116, 116, 112]

/-- Byte string of the log line emitted when applying tags fails. -/
def tagErrLog : List Nat := [101, 114, 114, 111, 114, 32, 112, 97, 116, 99, 104, 105, 110, 103, 32, 116, 97, 103, 115]

/-- Byte string of the warning logged on an out-of-order span finish. -/
def oooLog : List Nat := [102, 105, 110, 105, 115, 104, 105, 110, 103, 32, 97, 32, 110, 111, 110, 45, 116, 111, 112, 32, 115, 112, 97, 110]

/-- Byte string for the span name lambda.command. -/
def lambdaCmdName : List Nat := [108, 97, 109, 98, 100, 97, 46, 99, 111, 109, 109, 97, 110, 100]

/-- Byte string for the service name aws.lambda. -/
def awsLambdaSvc : List Nat := [97, 119, 115, 46, 108, 97, 109, 98, 100, 97]

/-- Byte string for the resource name lambda.invoke. -/
def lambdaInvokeRes : List Nat := [108, 97, 109, 98, 100, 97, 46, 105, 110, 118, 111, 107, 101]

/-- Byte string for the text None. -/
def noneBytes : List Nat := [78, 111, 110, 101]

/-- Byte string for the text Response. -/
def respBytes : List Nat := [82, 101, 115, 112, 111, 110, 115, 101]

/-- Byte string of the base64 decode failure message. -/
def b64ErrBytes : List Nat := [105, 110, 118, 97, 108, 105, 100, 32, 98, 97, 115, 101, 54, 52]

/-- Byte string of the JSON parse failure message. -/
def jsonErrBytes : List Nat := [105, 110, 118, 97, 108, 105, 100, 32, 106, 115, 111, 110]

/-! ## Association lists (Python dict semantics: in-place update, append new keys) -/

/-- Update key `k` to value `v`, keeping insertion order; append when absent.  This is
the Python dict assignment semantics used for span tags, metrics, and JSON objects. -/
def setKV {α : Type} : List (List Nat × α) → List Nat → α → List (List Nat × α)
  | [], k, v => [(k, v)]
  | (k', v') :: rest, k, v =>
    if k' = k then (k', v) :: rest else (k', v') :: setKV rest k v

/-- Look a key up in an association list. -/
def lookupKV {α : Type} : List (List Nat × α) → List Nat → Option α
  | [], _ => none
  | (k', v') :: rest, k => if k' = k then some v' else lookupKV rest k

theorem lookupKV_setKV_self {α : Type} (t : List (List Nat × α)) (k : List Nat) (v : α) :
    lookupKV (setKV t k v) k = some v := by
  induction t with
  | nil => simp [setKV, lookupKV]
  | cons hd tl ih =>
    obtain ⟨k', v'⟩ := hd
    by_cases h : k' = k
    · simp [setKV, lookupKV, h]
    · simp [setKV, lookupKV, h, ih]

theorem lookupKV_setKV_other {α : Type} (t : List (List Nat × α)) (k k' : List Nat) (v : α)
    (h : k' ≠ k) : lookupKV (setKV t k v) k' = lookupKV t k' := by
  have hne : ¬k = k' := fun hh => h hh.symm
  induction t with
  | nil =>
    simp only [setKV, lookupKV]
    rw [if_neg hne]
  | cons hd tl ih =>
    obtain ⟨k0, v0⟩ := hd
    by_cases h0 : k0 = k
    · subst h0
      simp only [setKV, if_pos rfl, lookupKV]
      rw [if_neg hne, if_neg hne]
    · simp only [setKV, if_neg h0, lookupKV, ih]

/-! ## Decimal encoding of integers (models Python str of an int) -/

/-- Decimal digit bytes of a natural number, most significant first. -/
def natToDecBytes (n : Nat) : List Nat :=
  if h : n < 10 then [48 + n]
  else natToDecBytes (n / 10) ++ [48 + n % 10]
  decreasing_by exact Nat.div_lt_self (by omega) (by omega)

/-- Numeric value of a list of decimal digit bytes. -/
def decBytesToNat (ds : List Nat) : Nat :=
  ds.foldl (fun a b => a * 10 + (b - 48)) 0

/-- Parse a decimal byte string, requiring at least one digit and only digits
(models Python int applied to a string). -/
def decBytesToNatQ (ds : List Nat) : Option Nat :=
  if ds ≠ [] ∧ ds.all (fun b => 48 ≤ b && b ≤ 57) then some (decBytesToNat ds) else none

theorem natToDecBytes_digits (n : Nat) : ∀ b ∈ natToDecBytes n, 48 ≤ b ∧ b ≤ 57 := by
  induction n using Nat.strong_induction_on with
  | _ n ih =>
    rw [natToDecBytes]
    split
    next h =>
      intro b hb
      simp only [List.mem_singleton] at hb
      omega
    next h =>
      intro b hb
      rw [List.mem_append] at hb
      rcases hb with hb | hb
      · exact ih (n / 10) (Nat.div_lt_self (by omega) (by omega)) b hb
      · simp only [List.mem_singleton] at hb
        have h10 : n % 10 < 10 := Nat.mod_lt _ (by omega)
        omega

theorem natToDecBytes_ne_nil (n : Nat) : natToDecBytes n ≠ [] := by
  rw [natToDecBytes]
  split
  · simp
  · simp

theorem decBytesToNat_append (a : List Nat) (d : Nat) :
    decBytesToNat (a ++ [d]) = decBytesToNat a * 10 + (d - 48) := by
  simp [decBytesToNat, List.foldl_append]

theorem decBytesToNat_natToDecBytes (n : Nat) : decBytesToNat (natToDecBytes n) = n := by
  induction n using Nat.strong_induction_on with
  | _ n ih =>
    rw [natToDecBytes]
    split
    next h =>
      simp only [decBytesToNat, List.foldl]
      omega
    next h =>
      rw [decBytesToNat_append, ih (n / 10) (Nat.div_lt_self (by omega) (by omega))]
      omega

theorem decBytesToNatQ_natToDecBytes (n : Nat) : decBytesToNatQ (natToDecBytes n) = some n := by
  have h1 := natToDecBytes_ne_nil n
  have h2 := natToDecBytes_digits n
  simp only [decBytesToNatQ]
  rw [if_pos]
  · rw [decBytesToNat_natToDecBytes]
  · refine ⟨h1, ?_⟩
    rw [List.all_eq_true]
    intro b hb
    have := h2 b hb
    simp only [Bool.and_eq_true, decide_eq_true_eq]
    omega

/-- Decimal bytes of an integer, with a leading minus byte when negative
(models Python str of an int). -/
def intBytes (i : Int) : List Nat :=
  if i < 0 then 45 :: natToDecBytes i.natAbs else natToDecBytes i.natAbs

/-! ## Base64 (RFC 4648 alphabet), modelled over byte values -/

/-- Base64 alphabet: sextet value to ASCII byte. -/
def b64et (k : Nat) : Nat :=
  if k < 26 then 65 + k
  else if k < 52 then 97 + (k - 26)
  else if k < 62 then 48 + (k - 52)
  else if k = 62 then 43
  else 47

/-- Base64 alphabet inverse: ASCII byte to sextet value, none for bytes
outside the alphabet. -/
def b64dt (c : Nat) : Option Nat :=
  if 65 ≤ c ∧ c ≤ 90 then some (c - 65)
  else if 97 ≤ c ∧ c ≤ 122 then some (26 + (c - 97))
  else if 48 ≤ c ∧ c ≤ 57 then some (52 + (c - 48))
  else if c = 43 then some 62
  else if c = 47 then some 63
  else none

theorem b64dt_b64et : ∀ k, k < 64 → b64dt (b64et k) = some k := by decide

theorem b64et_ne_61 : ∀ k, k < 64 → b64et k ≠ 61 := by decide

/-- Base64 encode a byte list (with padding). -/
def b64encode : List Nat → List Nat
  | [] => []
  | [b1] => [b64et (b1 / 4), b64et (b1 % 4 * 16), 61, 61]
  | [b1, b2] => [b64et (b1 / 4), b64et (b1 % 4 * 16 + b2 / 16), b64et (b2 % 16 * 4), 61]
  | b1 :: b2 :: b3 :: rest =>
    b64et (b1 / 4) :: b64et (b1 % 4 * 16 + b2 / 16) :: b64et (b2 % 16 * 4 + b3 / 64) ::
      b64et (b3 % 64) :: b64encode rest

/-- Base64 decode; fails (none) on characters outside the alphabet or a
length that is not a multiple of four. -/
def b64decode : List Nat → Option (List Nat)
  | [] => some []
  | c1 :: c2 :: c3 :: c4 :: rest =>
    match b64dt c1, b64dt c2 with
    | some s1, some s2 =>
      if c3 = 61 then
        if c4 = 61 ∧ rest = [] then some [s1 * 4 + s2 / 16] else none
      else
        match b64dt c3 with
        | some s3 =>
          if c4 = 61 then
            if rest = [] then some [s1 * 4 + s2 / 16, s2 % 16 * 16 + s3 / 4] else none
          else
            match b64dt c4 with
            | some s4 =>
              (b64decode rest).map
                (fun bs => (s1 * 4 + s2 / 16) :: ((s2 % 16 * 16 + s3 / 4) :: ((s3 % 4 * 64 + s4) :: bs)))
            | none => none
        | none => none
    | _, _ => none
  | _ => none

theorem b64decode_b64encode (l : List Nat) (h : ∀ b ∈ l, b < 256) :
    b64decode (b64encode l) = some l := by
  match l with
  | [] => simp [b64encode, b64decode]
  | [b1] =>
    have hb1 : b1 < 256 := h b1 (by simp)
    have e1 := b64dt_b64et (b1 / 4) (by omega)
    have e2 := b64dt_b64et (b1 % 4 * 16) (by omega)
    simp [b64encode, b64decode, e1, e2]
    omega
  | [b1, b2] =>
    have hb1 : b1 < 256 := h b1 (by simp)
    have hb2 : b2 < 256 := h b2 (by simp)
    have e1 := b64dt_b64et (b1 / 4) (by omega)
    have e2 := b64dt_b64et (b1 % 4 * 16 + b2 / 16) (by omega)
    have e3 := b64dt_b64et (b2 % 16 * 4) (by omega)
    have n3 := b64et_ne_61 (b2 % 16 * 4) (by omega)
    simp [b64encode, b64decode, e1, e2, e3, n3]
    omega
  | b1 :: b2 :: b3 :: rest =>
    have hb1 : b1 < 256 := h b1 (by simp)
    have hb2 : b2 < 256 := h b2 (by simp)
    have hb3 : b3 < 256 := h b3 (by simp)
    have ih := b64decode_b64encode rest (fun b hb => h b (by simp [hb]))
    have e1 := b64dt_b64et (b1 / 4) (by omega)
    have e2 := b64dt_b64et (b1 % 4 * 16 + b2 / 16) (by omega)
    have e3 := b64dt_b64et (b2 % 16 * 4 + b3 / 64) (by omega)
    have e4 := b64dt_b64et (b3 % 64) (by omega)
    have n3 := b64et_ne_61 (b2 % 16 * 4 + b3 / 64) (by omega)
    have n4 := b64et_ne_61 (b3 % 64) (by omega)
    show b64decode (b64et (b1 / 4) :: b64et (b1 % 4 * 16 + b2 / 16) ::
      b64et (b2 % 16 * 4 + b3 / 64) :: b64et (b3 % 64) :: b64encode rest) = _
    simp [b64decode, e1, e2, e3, e4, n3, n4, ih]
    omega
termination_by l.length

/-! ## JSON values over byte strings

Modelled from the spec: the payload wire format is a JSON-compatible nested
object.  Strings and keys are byte lists; arrays are omitted (the propagator
only ever produces nested objects of strings). -/

mutual
inductive Json where
  | null : Json
  | bool : Bool → Json
  | num : Int → Json
  | str : List Nat → Json
  | obj : JMembers → Json
  deriving DecidableEq
inductive JMembers where
  | nil : JMembers
  | cons : List Nat → Json → JMembers → JMembers
  deriving DecidableEq
end

mutual
/-- Structural size of a JSON value, used as a fuel bound for the parser. -/
def jsize : Json → Nat
  | .null => 1
  | .bool _ => 1
  | .num _ => 1
  | .str _ => 1
  | .obj m => msize m + 1
/-- Structural size of a JSON member list. -/
def msize : JMembers → Nat
  | .nil => 1
  | .cons _ v m => jsize v + msize m + 1
end

/-- Escape quote and backslash bytes inside a JSON string body. -/
def escapeBytes : List Nat → List Nat
  | [] => []
  | b :: bs => if b = 34 ∨ b = 92 then 92 :: b :: escapeBytes bs else b :: escapeBytes bs

mutual
/-- Render a JSON value to bytes (the model of json.dumps, no whitespace). -/
def jrender : Json → List Nat
  | .null => [110, 117, 108, 108]
  | .bool true => [116, 114, 117, 101]
  | .bool false => [102, 97, 108, 115, 101]
  | .num i => if i < 0 then 45 :: natToDecBytes i.natAbs else natToDecBytes i.natAbs
  | .str s => 34 :: (escapeBytes s ++ [34])
  | .obj m => 123 :: (mrender m ++ [125])
/-- Render the members of a JSON object, comma separated. -/
def mrender : JMembers → List Nat
  | .nil => []
  | .cons k v .nil => 34 :: (escapeBytes k ++ (34 :: 58 :: jrender v))
  | .cons k v (.cons k2 v2 m2) =>
    34 :: (escapeBytes k ++ (34 :: 58 :: (jrender v ++
      (44 :: mrender (JMembers.cons k2 v2 m2)))))
end

/-- Parse a JSON string body up to the closing quote, unescaping
backslash-escaped bytes; returns the body and the remaining input. -/
def parseStringBody : List Nat → Option (List Nat × List Nat)
  | [] => none
  | b :: bs =>
    if b = 34 then some ([], bs)
    else if b = 92 then
      match bs with
      | [] => none
      | c :: bs2 => (parseStringBody bs2).map (fun p => (c :: p.1, p.2))
    else (parseStringBody bs).map (fun p => (b :: p.1, p.2))

/-- Split a leading run of decimal digit bytes from the input. -/
def parseDigits : List Nat → List Nat × List Nat
  | [] => ([], [])
  | b :: bs =>
    if 48 ≤ b ∧ b ≤ 57 then
      let p := parseDigits bs
      (b :: p.1, p.2)
    else ([], b :: bs)

/-- Match a literal byte sequence at the head of the input. -/
def dropLit : List Nat → List Nat → Option (List Nat)
  | [], bs => some bs
  | _ :: _, [] => none
  | l :: ls, b :: bs => if b = l then dropLit ls bs else none

/-- True when the input does not begin with a decimal digit byte. -/
def noDigitHead : List Nat → Bool
  | [] => true
  | b :: _ => !(48 ≤ b && b ≤ 57)

mutual
/-- Recursive-descent JSON value parser with a fuel bound (models json.loads). -/
def parseValue : Nat → List Nat → Option (Json × List Nat)
  | 0, _ => none
  | _ + 1, [] => none
  | f + 1, b :: bs =>
    if b = 34 then (parseStringBody bs).map (fun p => (Json.str p.1, p.2))
    else if b = 123 then
      match bs with
      | 125 :: r => some (Json.obj JMembers.nil, r)
      | _ => (parseMembers f bs).map (fun p => (Json.obj p.1, p.2))
    else if b = 110 then (dropLit [117, 108, 108] bs).map (fun r => (Json.null, r))
    else if b = 116 then (dropLit [114, 117, 101] bs).map (fun r => (Json.bool true, r))
    else if b = 102 then (dropLit [97, 108, 115, 101] bs).map (fun r => (Json.bool false, r))
    else if b = 45 then
      match parseDigits bs with
      | ([], _) => none
      | (ds, r) => some (Json.num (-(decBytesToNat ds : Int)), r)
    else if 48 ≤ b ∧ b ≤ 57 then
      match parseDigits (b :: bs) with
      | (ds, r) => some (Json.num ((decBytesToNat ds : Int)), r)
    else none
/-- Parser for one-or-more object members up to the closing brace. -/
def parseMembers : Nat → List Nat → Option (JMembers × List Nat)
  | 0, _ => none
  | _ + 1, [] => none
  | f + 1, b :: bs =>
    if b = 34 then
      match parseStringBody bs with
      | some (k, 58 :: bs2) =>
        match parseValue f bs2 with
        | some (v, 44 :: bs3) =>
          (parseMembers f bs3).map (fun p => (JMembers.cons k v p.1, p.2))
        | some (v, 125 :: bs3) => some (JMembers.cons k v JMembers.nil, bs3)
        | _ => none
      | _ => none
    else none
end

/-- Parse a complete JSON document: the whole input must be consumed. -/
def jsonParseBytes (bs : List Nat) : Option Json :=
  match parseValue (bs.length + 1) bs with
  | some (j, []) => some j
  | _ => none

theorem parseStringBody_quote (bs : List Nat) : parseStringBody (34 :: bs) = some ([], bs) := by
  rw [parseStringBody.eq_def]
  simp

theorem parseStringBody_esc (c : Nat) (bs : List Nat) :
    parseStringBody (92 :: c :: bs) = (parseStringBody bs).map (fun p => (c :: p.1, p.2)) := by
  rw [parseStringBody.eq_def]
  simp

theorem parseStringBody_byte (b : Nat) (bs : List Nat) (h1 : ¬b = 34) (h2 : ¬b = 92) :
    parseStringBody (b :: bs) = (parseStringBody bs).map (fun p => (b :: p.1, p.2)) := by
  rw [parseStringBody.eq_def]
  simp [h1, h2]

theorem parseStringBody_escape (s : List Nat) :
    ∀ rest, parseStringBody (escapeBytes s ++ (34 :: rest)) = some (s, rest) := by
  induction s with
  | nil =>
    intro rest
    simp only [escapeBytes, List.nil_append]
    exact parseStringBody_quote rest
  | cons b bs ih =>
    intro rest
    by_cases hb : b = 34 ∨ b = 92
    · simp only [escapeBytes, if_pos hb, List.cons_append]
      rw [parseStringBody_esc, ih rest]
      rfl
    · push_neg at hb
      simp only [escapeBytes, if_neg (by tauto : ¬(b = 34 ∨ b = 92)), List.cons_append]
      rw [parseStringBody_byte b _ hb.1 hb.2, ih rest]
      rfl

theorem parseDigits_digit (b : Nat) (bs : List Nat) (h : 48 ≤ b ∧ b ≤ 57) :
    parseDigits (b :: bs) = (b :: (parseDigits bs).1, (parseDigits bs).2) := by
  rw [parseDigits.eq_def]
  simp [h]

theorem parseDigits_stop (b : Nat) (bs : List Nat) (h : ¬(48 ≤ b ∧ b ≤ 57)) :
    parseDigits (b :: bs) = ([], b :: bs) := by
  rw [parseDigits.eq_def]
  simp [h]

theorem parseDigits_append (ds : List Nat) (rest : List Nat)
    (hds : ∀ b ∈ ds, 48 ≤ b ∧ b ≤ 57) (hrest : noDigitHead rest = true) :
    parseDigits (ds ++ rest) = (ds, rest) := by
  induction ds with
  | nil =>
    match rest with
    | [] => simp [parseDigits]
    | b :: r =>
      simp only [noDigitHead, Bool.not_eq_eq_eq_not, Bool.not_true, Bool.and_eq_false_iff] at hrest
      have hnd : ¬(48 ≤ b ∧ b ≤ 57) := by
        rcases hrest with h | h <;> simp only [decide_eq_false_iff_not] at h <;> omega
      simpa using parseDigits_stop b r hnd
  | cons d ds ih =>
    have hd := hds d (by simp)
    rw [List.cons_append, parseDigits_digit d _ hd, ih (fun b hb => hds b (by simp [hb]))]

theorem jsize_pos (j : Json) : 1 ≤ jsize j := by
  cases j <;> simp [jsize]

theorem msize_pos (m : JMembers) : 1 ≤ msize m := by
  cases m <;> simp [msize]

theorem mrender_cons_shape (k : List Nat) (v : Json) (m : JMembers) :
    ∃ t, mrender (JMembers.cons k v m) = 34 :: (escapeBytes k ++ (34 :: 58 :: t)) ∧
      ∀ rest, t ++ rest = jrender v ++
        (match m with
         | JMembers.nil => rest
         | JMembers.cons k2 v2 m2 => 44 :: (mrender (JMembers.cons k2 v2 m2) ++ rest)) := by
  match m with
  | .nil =>
    refine ⟨jrender v, by rw [mrender], ?_⟩
    intro rest
    rfl
  | .cons k2 v2 m2 =>
    refine ⟨jrender v ++ (44 :: mrender (JMembers.cons k2 v2 m2)), by rw [mrender], ?_⟩
    intro rest
    simp

theorem parseValue_zero (bs : List Nat) : parseValue 0 bs = none := by
  rw [parseValue.eq_def]

theorem parseValue_nil (f : Nat) : parseValue (f + 1) [] = none := by
  rw [parseValue.eq_def]

theorem parseValue_quote (f : Nat) (bs : List Nat) :
    parseValue (f + 1) (34 :: bs) = (parseStringBody bs).map (fun p => (Json.str p.1, p.2)) := by
  rw [parseValue.eq_def]
  norm_num

theorem parseValue_brace (f : Nat) (bs : List Nat) :
    parseValue (f + 1) (123 :: bs) =
      (match bs with
       | 125 :: r => some (Json.obj JMembers.nil, r)
       | _ => (parseMembers f bs).map (fun p => (Json.obj p.1, p.2))) := by
  rw [parseValue.eq_def]
  norm_num

theorem parseValue_nlit (f : Nat) (bs : List Nat) :
    parseValue (f + 1) (110 :: bs) = (dropLit [117, 108, 108] bs).map (fun r => (Json.null, r)) := by
  rw [parseValue.eq_def]
  norm_num

theorem parseValue_tlit (f : Nat) (bs : List Nat) :
    parseValue (f + 1) (116 :: bs) =
      (dropLit [114, 117, 101] bs).map (fun r => (Json.bool true, r)) := by
  rw [parseValue.eq_def]
  norm_num

theorem parseValue_flit (f : Nat) (bs : List Nat) :
    parseValue (f + 1) (102 :: bs) =
      (dropLit [97, 108, 115, 101] bs).map (fun r => (Json.bool false, r)) := by
  rw [parseValue.eq_def]
  norm_num

theorem parseValue_minus (f : Nat) (bs : List Nat) :
    parseValue (f + 1) (45 :: bs) =
      (match parseDigits bs with
       | ([], _) => none
       | (ds, r) => some (Json.num (-(decBytesToNat ds : Int)), r)) := by
  rw [parseValue.eq_def]
  norm_num

theorem parseValue_digit (f : Nat) (b : Nat) (bs : List Nat) (h : 48 ≤ b ∧ b ≤ 57) :
    parseValue (f + 1) (b :: bs) =
      (match parseDigits (b :: bs) with
       | (ds, r) => some (Json.num ((decBytesToNat ds : Int)), r)) := by
  rw [parseValue.eq_def]
  have h34 : ¬b = 34 := by omega
  have h123 : ¬b = 123 := by omega
  have h110 : ¬b = 110 := by omega
  have h116 : ¬b = 116 := by omega
  have h102 : ¬b = 102 := by omega
  have h45 : ¬b = 45 := by omega
  simp only [if_neg h34, if_neg h123, if_neg h110, if_neg h116, if_neg h102, if_neg h45, if_pos h]

theorem parseMembers_quote (f : Nat) (bs : List Nat) :
    parseMembers (f + 1) (34 :: bs) =
      (match parseStringBody bs with
       | some (k, 58 :: bs2) =>
         (match parseValue f bs2 with
          | some (v, 44 :: bs3) =>
            (parseMembers f bs3).map (fun p => (JMembers.cons k v p.1, p.2))
          | some (v, 125 :: bs3) => some (JMembers.cons k v JMembers.nil, bs3)
          | _ => none)
       | _ => none) := by
  rw [parseMembers.eq_def]
  norm_num

theorem parse_jrender_aux (f : Nat) :
    (∀ j rest, jsize j ≤ f → noDigitHead rest = true →
      parseValue f (jrender j ++ rest) = some (j, rest)) ∧
    (∀ k v m rest, msize (JMembers.cons k v m) ≤ f →
      parseMembers f (mrender (JMembers.cons k v m) ++ (125 :: rest)) =
        some (JMembers.cons k v m, rest)) := by
  induction f with
  | zero =>
    constructor
    · intro j rest hj _
      have := jsize_pos j
      omega
    · intro k v m rest hm
      simp only [msize] at hm
      have := jsize_pos v
      have := msize_pos m
      omega
  | succ f ih =>
    constructor
    · intro j rest hj hrest
      match j with
      | .null =>
        rw [jrender, List.cons_append, parseValue_nlit]
        simp [dropLit]
      | .bool true =>
        rw [jrender, List.cons_append, parseValue_tlit]
        simp [dropLit]
      | .bool false =>
        rw [jrender, List.cons_append, parseValue_flit]
        simp [dropLit]
      | .num i =>
        have hdig := natToDecBytes_digits i.natAbs
        have hpd : parseDigits (natToDecBytes i.natAbs ++ rest) = (natToDecBytes i.natAbs, rest) :=
          parseDigits_append _ _ hdig hrest
        obtain ⟨d, ds, hds⟩ : ∃ d ds, natToDecBytes i.natAbs = d :: ds := by
          match hnd : natToDecBytes i.natAbs with
          | [] => exact absurd hnd (natToDecBytes_ne_nil _)
          | d :: ds => exact ⟨d, ds, rfl⟩
        have hd0 := hdig d (by rw [hds]; simp)
        have hval : decBytesToNat (d :: ds) = i.natAbs := by
          rw [← hds, decBytesToNat_natToDecBytes]
        by_cases hneg : i < 0
        · rw [jrender, if_pos hneg, List.cons_append, parseValue_minus, hpd, hds]
          simp [hval, abs_of_neg hneg, neg_neg]
        · rw [jrender, if_neg hneg, hds, List.cons_append, parseValue_digit f d _ hd0,
            ← List.cons_append, ← hds, hpd]
          have hi : ((i.natAbs : Nat) : Int) = i := by omega
          simp [decBytesToNat_natToDecBytes, hi]
      | .str s =>
        rw [jrender]
        have hshape : (34 :: (escapeBytes s ++ [34])) ++ rest =
            34 :: (escapeBytes s ++ (34 :: rest)) := by
          simp
        rw [hshape, parseValue_quote, parseStringBody_escape s rest]
        rfl
      | .obj .nil =>
        rw [jrender, mrender]
        have hshape : (123 :: (([] : List Nat) ++ [125])) ++ rest = 123 :: 125 :: rest := by
          simp
        rw [hshape, parseValue_brace]
      | .obj (.cons k v m) =>
        have hsz : msize (JMembers.cons k v m) ≤ f := by
          simp only [jsize] at hj
          omega
        have hmem := ih.2 k v m rest hsz
        rw [jrender]
        have hshape : (123 :: (mrender (JMembers.cons k v m) ++ [125])) ++ rest =
            123 :: (mrender (JMembers.cons k v m) ++ (125 :: rest)) := by
          simp
        rw [hshape, parseValue_brace]
        obtain ⟨t, ht, -⟩ := mrender_cons_shape k v m
        rw [ht]
        rw [ht] at hmem
        simp only [List.cons_append] at hmem ⊢
        rw [hmem]
        rfl
    · intro k v m rest hm
      have hv : jsize v ≤ f := by
        simp only [msize] at hm
        have := msize_pos m
        omega
      match m with
      | .nil =>
        have hval := ih.1 v (125 :: rest) hv (by simp [noDigitHead])
        rw [mrender, List.cons_append, parseMembers_quote]
        have hshape : escapeBytes k ++ (34 :: 58 :: jrender v) ++ (125 :: rest) =
            escapeBytes k ++ (34 :: (58 :: (jrender v ++ (125 :: rest)))) := by
          simp
        rw [hshape, parseStringBody_escape k]
        simp only [hval]
      | .cons k2 v2 m2 =>
        have hm2 : msize (JMembers.cons k2 v2 m2) ≤ f := by
          simp only [msize] at hm ⊢
          omega
        have hval := ih.1 v (44 :: (mrender (JMembers.cons k2 v2 m2) ++ (125 :: rest))) hv
          (by simp [noDigitHead])
        have hmem := ih.2 k2 v2 m2 rest hm2
        rw [mrender, List.cons_append, parseMembers_quote]
        have hshape : escapeBytes k ++
            (34 :: 58 :: (jrender v ++ (44 :: mrender (JMembers.cons k2 v2 m2)))) ++ (125 :: rest) =
            escapeBytes k ++ (34 :: (58 :: (jrender v ++
              (44 :: (mrender (JMembers.cons k2 v2 m2) ++ (125 :: rest)))))) := by
          simp
        rw [hshape, parseStringBody_escape k]
        simp only [hval, hmem]
        rfl

theorem render_size_aux (n : Nat) :
    (∀ j, jsize j ≤ n → jsize j ≤ (jrender j).length) ∧
    (∀ k v m, msize (JMembers.cons k v m) ≤ n →
      msize (JMembers.cons k v m) ≤ (mrender (JMembers.cons k v m)).length + 1) := by
  induction n with
  | zero =>
    constructor
    · intro j hj
      have := jsize_pos j
      omega
    · intro k v m hm
      simp only [msize] at hm
      have := jsize_pos v
      have := msize_pos m
      omega
  | succ n ih =>
    constructor
    · intro j hj
      match j with
      | .null => simp [jsize, jrender]
      | .bool true => simp [jsize, jrender]
      | .bool false => simp [jsize, jrender]
      | .num i =>
        have := natToDecBytes_ne_nil i.natAbs
        have hlen : 1 ≤ (natToDecBytes i.natAbs).length := by
          cases hnd : natToDecBytes i.natAbs with
          | nil => exact absurd hnd this
          | cons d ds => simp
        by_cases hneg : i < 0
        · simp only [jsize, jrender, if_pos hneg, List.length_cons]
          omega
        · simp only [jsize, jrender, if_neg hneg]
          omega
      | .str s => simp [jsize, jrender]
      | .obj .nil => simp [jsize, msize, jrender, mrender]
      | .obj (.cons k v m) =>
        have hsz : msize (JMembers.cons k v m) ≤ n := by
          simp only [jsize] at hj
          omega
        have := ih.2 k v m hsz
        simp only [jsize, jrender, List.length_cons, List.length_append] at *
        omega
    · intro k v m hm
      have hv : jsize v ≤ n := by
        simp only [msize] at hm
        have := msize_pos m
        omega
      have hvlen := ih.1 v hv
      match m with
      | .nil =>
        simp only [msize, mrender, List.length_cons, List.length_append] at *
        omega
      | .cons k2 v2 m2 =>
        have hm2 : msize (JMembers.cons k2 v2 m2) ≤ n := by
          simp only [msize] at hm ⊢
          omega
        have := ih.2 k2 v2 m2 hm2
        simp only [msize, mrender, List.length_cons, List.length_append] at *
        omega

theorem jsize_le_render (j : Json) : jsize j ≤ (jrender j).length :=
  (render_size_aux (jsize j)).1 j le_rfl

theorem parse_jrender (j : Json) (rest : List Nat) (f : Nat)
    (hf : jsize j ≤ f) (hrest : noDigitHead rest = true) :
    parseValue f (jrender j ++ rest) = some (j, rest) :=
  (parse_jrender_aux f).1 j rest hf hrest

theorem jsonParseBytes_jrender (j : Json) : jsonParseBytes (jrender j) = some j := by
  have h1 : jsize j ≤ (jrender j).length + 1 := by
    have := jsize_le_render j
    omega
  have h2 := parse_jrender j [] ((jrender j).length + 1) h1 (by simp [noDigitHead])
  rw [List.append_nil] at h2
  simp [jsonParseBytes, h2]

mutual
/-- A JSON value is byte-wise well-formed when every string byte fits in one
octet (all content in this development is ASCII). -/
def jwfJ : Json → Bool
  | .null => true
  | .bool _ => true
  | .num _ => true
  | .str s => s.all (fun b => decide (b < 256))
  | .obj m => jwfM m
/-- Member-list analogue of jwfJ. -/
def jwfM : JMembers → Bool
  | .nil => true
  | .cons k v m => k.all (fun b => decide (b < 256)) && jwfJ v && jwfM m
end

theorem escapeBytes_mem (s : List Nat) : ∀ b ∈ escapeBytes s, b = 92 ∨ b ∈ s := by
  induction s with
  | nil => simp [escapeBytes]
  | cons c cs ih =>
    intro b hb
    by_cases hc : c = 34 ∨ c = 92
    · simp only [escapeBytes, if_pos hc, List.mem_cons] at hb
      rcases hb with h | h | h
      · left; exact h
      · right; simp [h]
      · rcases ih b h with h2 | h2
        · left; exact h2
        · right; simp [h2]
    · simp only [escapeBytes, if_neg hc, List.mem_cons] at hb
      rcases hb with h | h
      · right; simp [h]
      · rcases ih b h with h2 | h2
        · left; exact h2
        · right; simp [h2]

theorem render_bound_aux (n : Nat) :
    (∀ j, jsize j ≤ n → jwfJ j = true → ∀ b ∈ jrender j, b < 256) ∧
    (∀ k v m, msize (JMembers.cons k v m) ≤ n → jwfM (JMembers.cons k v m) = true →
      ∀ b ∈ mrender (JMembers.cons k v m), b < 256) := by
  induction n with
  | zero =>
    constructor
    · intro j hj
      have := jsize_pos j
      omega
    · intro k v m hm
      simp only [msize] at hm
      have := jsize_pos v
      have := msize_pos m
      omega
  | succ n ih =>
    have hesc : ∀ s : List Nat, s.all (fun b => decide (b < 256)) = true →
        ∀ b ∈ escapeBytes s, b < 256 := by
      intro s hs b hb
      rcases escapeBytes_mem s b hb with h | h
      · omega
      · rw [List.all_eq_true] at hs
        have := hs b h
        simpa using this
    constructor
    · intro j hj hwf
      match j with
      | .null => decide
      | .bool true => decide
      | .bool false => decide
      | .num i =>
        have hdig := natToDecBytes_digits i.natAbs
        intro b hb
        by_cases hneg : i < 0
        · simp only [jrender, if_pos hneg, List.mem_cons] at hb
          rcases hb with h | h
          · omega
          · have := hdig b h
            omega
        · simp only [jrender, if_neg hneg] at hb
          have := hdig b hb
          omega
      | .str s =>
        simp only [jwfJ] at hwf
        simp only [jrender, List.forall_mem_cons, List.forall_mem_append,
          List.forall_mem_singleton, List.forall_mem_nil, and_true]
        exact ⟨by omega, hesc s hwf, by omega, by simp⟩
      | .obj .nil => decide
      | .obj (.cons k v m) =>
        simp only [jwfJ] at hwf
        have hsz : msize (JMembers.cons k v m) ≤ n := by
          simp only [jsize] at hj
          omega
        have hmem := ih.2 k v m hsz hwf
        simp only [jrender, List.forall_mem_cons, List.forall_mem_append,
          List.forall_mem_singleton, List.forall_mem_nil, and_true]
        exact ⟨by omega, hmem, by omega, by simp⟩
    · intro k v m hm hwf
      simp only [jwfM, Bool.and_eq_true] at hwf
      obtain ⟨⟨hk, hv⟩, hmm⟩ := hwf
      have hvsz : jsize v ≤ n := by
        simp only [msize] at hm
        have := msize_pos m
        omega
      have hval := ih.1 v hvsz hv
      match m with
      | .nil =>
        simp only [mrender, List.forall_mem_cons, List.forall_mem_append,
          List.forall_mem_singleton, List.forall_mem_nil, and_true]
        exact ⟨by omega, hesc k hk, by omega, by omega, hval⟩
      | .cons k2 v2 m2 =>
        have hm2 : msize (JMembers.cons k2 v2 m2) ≤ n := by
          simp only [msize] at hm ⊢
          omega
        have hmem := ih.2 k2 v2 m2 hm2 hmm
        simp only [mrender, List.forall_mem_cons, List.forall_mem_append,
          List.forall_mem_singleton, List.forall_mem_nil, and_true]
        exact ⟨by omega, hesc k hk, by omega, by omega, hval, by omega, hmem⟩

theorem jrender_bound (j : Json) (hwf : jwfJ j = true) : ∀ b ∈ jrender j, b < 256 :=
  (render_bound_aux (jsize j)).1 j le_rfl hwf

/-! ## Payload propagator (modelled from the spec)

Modelled from the spec: the aiobotocore integration's lambda Invoke
client-context injection/extraction is not under src (only its tests are).
The spec: the three context fields are embedded as a nested object under a
reserved key inside the caller's structured payload, base64-encoded because
the ClientContext transport field is itself a base64 string; trace id and
parent span id are stored as base-10 string-encoded integers; decoding is
best-effort and never raises; injection must not overwrite unrelated keys. -/

/-- Look up a key in a JSON object member list (Python dict indexing). -/
def objLookup (k : List Nat) : JMembers → Option Json
  | .nil => none
  | .cons k' v m => if k' = k then some v else objLookup k m

/-- Set a key in a JSON object member list, in place; append when absent
(Python dict assignment). -/
def msetKey (k : List Nat) (v : Json) : JMembers → JMembers
  | .nil => .cons k v .nil
  | .cons k' v' m => if k' = k then .cons k' v m else .cons k' v' (msetKey k v m)

theorem objLookup_msetKey_self (k : List Nat) (v : Json) (m : JMembers) :
    objLookup k (msetKey k v m) = some v := by
  match m with
  | .nil => simp [msetKey, objLookup]
  | .cons k' v' m =>
    by_cases h : k' = k
    · simp [msetKey, objLookup, h]
    · simp [msetKey, objLookup, h, objLookup_msetKey_self k v m]

theorem objLookup_msetKey_other (k k2 : List Nat) (v : Json) (m : JMembers)
    (h : k2 ≠ k) : objLookup k2 (msetKey k v m) = objLookup k2 m := by
  have hne : ¬k = k2 := fun hh => h hh.symm
  match m with
  | .nil =>
    simp only [msetKey, objLookup]
    rw [if_neg hne]
  | .cons k' v' m =>
    by_cases h0 : k' = k
    · subst h0
      simp only [msetKey, if_pos rfl, objLookup]
      rw [if_neg hne, if_neg hne]
    · simp only [msetKey, if_neg h0, objLookup, objLookup_msetKey_other k k2 v m h]

/-- View a JSON value as an object. -/
def asObj : Json → Option JMembers
  | .obj m => some m
  | _ => none

/-- View a JSON value as a string. -/
def asStr : Json → Option (List Nat)
  | .str s => some s
  | _ => none

/-- Encode a JSON value into a ClientContext transport field:
serialize and base64-encode. -/
def encodeClientContext (j : Json) : List Nat :=
  b64encode (jrender j)

/-- Decode a ClientContext transport field, with the failure surfaced as an
Except error (the model of the exception Python would raise). -/
def decodeClientContextE (field : List Nat) : Except (List Nat) Json :=
  match b64decode field with
  | none => .error b64ErrBytes
  | some bs =>
    match jsonParseBytes bs with
    | none => .error jsonErrBytes
    | some j => .ok j

/-- Decode a ClientContext transport field, best effort. -/
def decodeClientContext (field : List Nat) : Option Json :=
  match decodeClientContextE field with
  | .ok j => some j
  | .error _ => none

theorem decodeClientContextE_encode (j : Json) (hwf : jwfJ j = true) :
    decodeClientContextE (encodeClientContext j) = .ok j := by
  have hb := b64decode_b64encode (jrender j) (jrender_bound j hwf)
  simp [decodeClientContextE, encodeClientContext, hb, jsonParseBytes_jrender j]

theorem decodeClientContext_encode (j : Json) (hwf : jwfJ j = true) :
    decodeClientContext (encodeClientContext j) = some j := by
  simp [decodeClientContext, decodeClientContextE_encode j hwf]

/-- The propagated context entries: trace id and parent span id as base-10
string-encoded integers under the fixed reserved header names. -/
def ddHeaders (tid pid : Nat) : JMembers :=
  .cons traceIdKey (.str (natToDecBytes tid))
    (.cons parentIdKey (.str (natToDecBytes pid)) .nil)

/-- Merge the context entries into a caller-supplied client-context object
under custom._datadog, preserving unrelated keys (Python dict update). -/
def mergeDatadog (j : Json) (tid pid : Nat) : Json :=
  match j with
  | .obj m =>
    match objLookup customKey m with
    | some (.obj c) =>
      .obj (msetKey customKey (.obj (msetKey datadogKey (.obj (ddHeaders tid pid)) c)) m)
    | _ =>
      .obj (msetKey customKey
        (.obj (JMembers.cons datadogKey (.obj (ddHeaders tid pid)) JMembers.nil)) m)
  | _ =>
    .obj (JMembers.cons customKey
      (.obj (JMembers.cons datadogKey (.obj (ddHeaders tid pid)) JMembers.nil)) JMembers.nil)

/-- Inject the tracing context into an optional existing ClientContext field:
decode the existing field when present (bailing out, field unchanged, when it
is malformed), merge the reserved entry, re-encode. -/
def injectClientContext (existing : Option (List Nat)) (tid pid : Nat) : Option (List Nat) :=
  match existing with
  | none => some (encodeClientContext (mergeDatadog (.obj JMembers.nil) tid pid))
  | some field =>
    match decodeClientContextE field with
    | .error _ => some field
    | .ok j => some (encodeClientContext (mergeDatadog j tid pid))

/-- Read the trace id and parent span id back out of a decoded
client-context object. -/
def readDatadogIds (j : Json) : Option (Nat × Nat) :=
  match asObj j with
  | none => none
  | some m =>
    match (objLookup customKey m).bind asObj with
    | none => none
    | some c =>
      match (objLookup datadogKey c).bind asObj with
      | none => none
      | some d =>
        match ((objLookup traceIdKey d).bind asStr).bind decBytesToNatQ,
              ((objLookup parentIdKey d).bind asStr).bind decBytesToNatQ with
        | some t, some p => some (t, p)
        | _, _ => none

/-- Extract an inbound context from an optional ClientContext field: any
decode failure is swallowed and treated as absent context. -/
def extractContext : Option (List Nat) → Option (Nat × Nat)
  | none => none
  | some field =>
    match decodeClientContextE field with
    | .error _ => none
    | .ok j => readDatadogIds j

theorem natToDecBytes_all_lt (n : Nat) :
    (natToDecBytes n).all (fun b => decide (b < 256)) = true := by
  rw [List.all_eq_true]
  intro b hb
  have := natToDecBytes_digits n b hb
  simp only [decide_eq_true_eq]
  omega

theorem traceIdKey_all_lt : traceIdKey.all (fun b => decide (b < 256)) = true := by decide

theorem parentIdKey_all_lt : parentIdKey.all (fun b => decide (b < 256)) = true := by decide

theorem jwfM_ddHeaders (tid pid : Nat) : jwfM (ddHeaders tid pid) = true := by
  simp only [ddHeaders, jwfM, jwfJ, traceIdKey_all_lt, parentIdKey_all_lt,
    natToDecBytes_all_lt, Bool.and_true, Bool.true_and]

theorem jwfM_msetKey (k : List Nat) (v : Json) (m : JMembers)
    (hm : jwfM m = true) (hk : k.all (fun b => decide (b < 256)) = true)
    (hv : jwfJ v = true) : jwfM (msetKey k v m) = true := by
  match m with
  | .nil => simp only [msetKey, jwfM, hk, hv, Bool.and_self, Bool.and_true, Bool.true_and]
  | .cons k' v' m =>
    simp only [jwfM, Bool.and_eq_true] at hm
    obtain ⟨⟨hk', hv'⟩, hm'⟩ := hm
    by_cases h : k' = k
    · simp only [msetKey, if_pos h, jwfM, hk', hv, hm', Bool.and_self, Bool.and_true,
        Bool.true_and]
    · simp only [msetKey, if_neg h, jwfM, hk', hv', jwfM_msetKey k v m hm' hk hv,
        Bool.and_self, Bool.and_true, Bool.true_and]

theorem jwfM_objLookup (k : List Nat) (m : JMembers) (v : Json)
    (hm : jwfM m = true) (hl : objLookup k m = some v) : jwfJ v = true := by
  match m with
  | .nil => simp [objLookup] at hl
  | .cons k' v' m =>
    simp only [jwfM, Bool.and_eq_true] at hm
    obtain ⟨⟨hk', hv'⟩, hm'⟩ := hm
    by_cases h : k' = k
    · simp only [objLookup, if_pos h] at hl
      rw [← Option.some_inj.mp hl]
      exact hv'
    · simp only [objLookup, if_neg h] at hl
      exact jwfM_objLookup k m v hm' hl

theorem jwfJ_mergeDatadog (j : Json) (tid pid : Nat) (hwf : jwfJ j = true) :
    jwfJ (mergeDatadog j tid pid) = true := by
  have hck : customKey.all (fun b => decide (b < 256)) = true := by decide
  have hdk : datadogKey.all (fun b => decide (b < 256)) = true := by decide
  have hdd : jwfJ (.obj (ddHeaders tid pid)) = true := by
    simp [jwfJ, jwfM_ddHeaders]
  match j with
  | .obj m =>
    match hc : objLookup customKey m with
    | some (.obj c) =>
      have hcwf : jwfM c = true := by
        have := jwfM_objLookup customKey m (.obj c) hwf hc
        simpa [jwfJ] using this
      show jwfJ (mergeDatadog (.obj m) tid pid) = true
      rw [mergeDatadog]
      rw [hc]
      show jwfM (msetKey customKey (.obj (msetKey datadogKey (.obj (ddHeaders tid pid)) c)) m) = true
      exact jwfM_msetKey _ _ _ hwf hck
        (by
          show jwfM (msetKey datadogKey (.obj (ddHeaders tid pid)) c) = true
          exact jwfM_msetKey _ _ _ hcwf hdk hdd)
    | some (.null) =>
      rw [mergeDatadog, hc]
      exact jwfM_msetKey _ _ _ hwf hck
        (by simp only [jwfJ, jwfM, hdk, jwfM_ddHeaders, traceIdKey_all_lt, parentIdKey_all_lt,
          natToDecBytes_all_lt, Bool.and_true, Bool.true_and])
    | some (.bool b) =>
      rw [mergeDatadog, hc]
      exact jwfM_msetKey _ _ _ hwf hck
        (by simp only [jwfJ, jwfM, hdk, jwfM_ddHeaders, traceIdKey_all_lt, parentIdKey_all_lt,
          natToDecBytes_all_lt, Bool.and_true, Bool.true_and])
    | some (.num i) =>
      rw [mergeDatadog, hc]
      exact jwfM_msetKey _ _ _ hwf hck
        (by simp only [jwfJ, jwfM, hdk, jwfM_ddHeaders, traceIdKey_all_lt, parentIdKey_all_lt,
          natToDecBytes_all_lt, Bool.and_true, Bool.true_and])
    | some (.str s) =>
      rw [mergeDatadog, hc]
      exact jwfM_msetKey _ _ _ hwf hck
        (by simp only [jwfJ, jwfM, hdk, jwfM_ddHeaders, traceIdKey_all_lt, parentIdKey_all_lt,
          natToDecBytes_all_lt, Bool.and_true, Bool.true_and])
    | none =>
      rw [mergeDatadog, hc]
      exact jwfM_msetKey _ _ _ hwf hck
        (by simp only [jwfJ, jwfM, hdk, jwfM_ddHeaders, traceIdKey_all_lt, parentIdKey_all_lt,
          natToDecBytes_all_lt, Bool.and_true, Bool.true_and])
  | .null =>
    simp only [mergeDatadog, jwfJ, jwfM, hck, hdk, jwfM_ddHeaders, traceIdKey_all_lt,
      parentIdKey_all_lt, natToDecBytes_all_lt, Bool.and_true, Bool.true_and]
  | .bool b =>
    simp only [mergeDatadog, jwfJ, jwfM, hck, hdk, jwfM_ddHeaders, traceIdKey_all_lt,
      parentIdKey_all_lt, natToDecBytes_all_lt, Bool.and_true, Bool.true_and]
  | .num i =>
    simp only [mergeDatadog, jwfJ, jwfM, hck, hdk, jwfM_ddHeaders, traceIdKey_all_lt,
      parentIdKey_all_lt, natToDecBytes_all_lt, Bool.and_true, Bool.true_and]
  | .str s =>
    simp only [mergeDatadog, jwfJ, jwfM, hck, hdk, jwfM_ddHeaders, traceIdKey_all_lt,
      parentIdKey_all_lt, natToDecBytes_all_lt, Bool.and_true, Bool.true_and]

theorem readDatadogIds_ddmembers (tid pid : Nat) (c : JMembers) :
    readDatadogIds (.obj (msetKey customKey
      (.obj (msetKey datadogKey (.obj (ddHeaders tid pid)) c)) JMembers.nil)) =
      some (tid, pid) := by
  simp [readDatadogIds, asObj, objLookup_msetKey_self, asStr, ddHeaders, objLookup,
    decBytesToNatQ_natToDecBytes, traceIdKey, parentIdKey]

theorem readDatadogIds_mergeDatadog (j : Json) (tid pid : Nat) :
    readDatadogIds (mergeDatadog j tid pid) = some (tid, pid) := by
  have hk : traceIdKey ≠ parentIdKey := by decide
  match j with
  | .obj m =>
    match hc : objLookup customKey m with
    | some (.obj c) =>
      rw [mergeDatadog, hc]
      simp [readDatadogIds, asObj, objLookup_msetKey_self, asStr, ddHeaders, objLookup,
        decBytesToNatQ_natToDecBytes, traceIdKey, parentIdKey]
    | some (.null) =>
      rw [mergeDatadog, hc]
      simp [readDatadogIds, asObj, objLookup_msetKey_self, asStr, ddHeaders, objLookup,
        decBytesToNatQ_natToDecBytes, traceIdKey, parentIdKey]
    | some (.bool b) =>
      rw [mergeDatadog, hc]
      simp [readDatadogIds, asObj, objLookup_msetKey_self, asStr, ddHeaders, objLookup,
        decBytesToNatQ_natToDecBytes, traceIdKey, parentIdKey]
    | some (.num i) =>
      rw [mergeDatadog, hc]
      simp [readDatadogIds, asObj, objLookup_msetKey_self, asStr, ddHeaders, objLookup,
        decBytesToNatQ_natToDecBytes, traceIdKey, parentIdKey]
    | some (.str s) =>
      rw [mergeDatadog, hc]
      simp [readDatadogIds, asObj, objLookup_msetKey_self, asStr, ddHeaders, objLookup,
        decBytesToNatQ_natToDecBytes, traceIdKey, parentIdKey]
    | none =>
      rw [mergeDatadog, hc]
      simp [readDatadogIds, asObj, objLookup_msetKey_self, asStr, ddHeaders, objLookup,
        decBytesToNatQ_natToDecBytes, traceIdKey, parentIdKey]
  | .null =>
    simp [mergeDatadog, readDatadogIds, asObj, objLookup, asStr, ddHeaders,
      decBytesToNatQ_natToDecBytes, customKey, datadogKey, traceIdKey, parentIdKey]
  | .bool b =>
    simp [mergeDatadog, readDatadogIds, asObj, objLookup, asStr, ddHeaders,
      decBytesToNatQ_natToDecBytes, customKey, datadogKey, traceIdKey, parentIdKey]
  | .num i =>
    simp [mergeDatadog, readDatadogIds, asObj, objLookup, asStr, ddHeaders,
      decBytesToNatQ_natToDecBytes, customKey, datadogKey, traceIdKey, parentIdKey]
  | .str s =>
    simp [mergeDatadog, readDatadogIds, asObj, objLookup, asStr, ddHeaders,
      decBytesToNatQ_natToDecBytes, customKey, datadogKey, traceIdKey, parentIdKey]

/-! ## Python value and exception model for the instrumentation layer -/

/-- A Python exception, carrying its message bytes. -/
structure PyErr where
  msg : List Nat
deriving DecidableEq

/-- Dynamically typed Python values crossing the instrumentation boundary:
strings, ints, None, and response objects (whose status_code attribute may
be missing, as on a mock). -/
inductive PyVal where
  | pystr : List Nat → PyVal
  | pyint : Int → PyVal
  | pynone : PyVal
  | presp : Option Int → PyVal
deriving DecidableEq

/-- The AttributeError raised on a missing attribute or method. -/
def attrError : PyErr := { msg := [65, 116, 116, 114, 105, 98, 117, 116, 101, 69, 114, 114, 111, 114] }

/-- Read response.status_code, raising when the value has no such attribute. -/
def statusCodePy : PyVal → Except PyErr Int
  | .presp (some c) => .ok c
  | _ => .error attrError

/-- Uppercase an ASCII byte. -/
def upperByte (b : Nat) : Nat := if 97 ≤ b ∧ b ≤ 122 then b - 32 else b

/-- method.upper, raising on non-strings. -/
def strUpperPy : PyVal → Except PyErr (List Nat)
  | .pystr s => .ok (s.map upperByte)
  | _ => .error attrError

/-- Result of urlparse: network location and path. -/
structure ParsedUrl where
  netloc : List Nat
  upath : List Nat
deriving DecidableEq

/-- Find the bytes following the first scheme separator (colon slash slash). -/
def afterSchemeSep : List Nat → Option (List Nat)
  | 58 :: 47 :: 47 :: rest => some rest
  | _ :: rest => afterSchemeSep rest
  | [] => none

/-- Split scheme-relative bytes at the first slash into netloc and path. -/
def splitNetloc (bs : List Nat) : List Nat × List Nat :=
  (bs.takeWhile (fun b => b != 47), bs.dropWhile (fun b => b != 47))

/-- urlparse on the bytes of a URL string. -/
def parseUrlBytes (bs : List Nat) : ParsedUrl :=
  match afterSchemeSep bs with
  | some rest => { netloc := (splitNetloc rest).1, upath := (splitNetloc rest).2 }
  | none => { netloc := [], upath := bs }

/-- urlparse on a Python value, raising on non-strings. -/
def urlparsePy : PyVal → Except PyErr ParsedUrl
  | .pystr s => .ok (parseUrlBytes s)
  | _ => .error attrError

/-- Stringification used when storing a tag value (Python str). -/
def pyStr : PyVal → List Nat
  | .pystr s => s
  | .pyint i => intBytes i
  | .pynone => noneBytes
  | .presp _ => respBytes

/-! ## Span and Tracer

Modelled from the spec: the Span/Tracer core (start_span, the per-context
active-span stack, finish, the trace buffer) is not under src; this follows
section 4 of the spec.  Random ids are modelled by a deterministic counter. -/

/-- A span record. -/
structure Span where
  name : List Nat
  service : List Nat
  resource : List Nat
  spanType : List Nat
  traceId : Nat
  spanId : Nat
  parentId : Option Nat
  sampled : Bool
  error : Bool
  tags : List (List Nat × List Nat)
  metrics : List (List Nat × Rat)
  startTime : Nat
  duration : Option Nat
  finished : Bool
deriving DecidableEq

/-- Tracer state: enabled flag, the sampling decision source, an id counter,
a logical clock, the active-span stack for the current execution context,
the trace buffer of finished spans, and emitted log lines. -/
structure TracerState where
  enabled : Bool
  sampleAll : Bool
  nextId : Nat
  clock : Nat
  stack : List Span
  buffer : List Span
  logs : List (List Nat)
deriving DecidableEq

/-- start_span: with no explicit parent, consult the active-span stack; a new
span becomes a child of the stack top (inheriting trace id and sampling
decision) or starts a fresh trace.  When the tracer is disabled, return a
no-op span and do no bookkeeping. -/
def start_span (tr : TracerState) (name service resource spanType : List Nat) :
    Span × TracerState :=
  if tr.enabled then
    match tr.stack with
    | parent :: _ =>
      let s : Span :=
        { name := name, service := service, resource := resource, spanType := spanType,
          traceId := parent.traceId, spanId := tr.nextId, parentId := some parent.spanId,
          sampled := parent.sampled, error := false, tags := [], metrics := [],
          startTime := tr.clock, duration := none, finished := false }
      (s, { tr with stack := s :: tr.stack, nextId := tr.nextId + 1, clock := tr.clock + 1 })
    | [] =>
      let s : Span :=
        { name := name, service := service, resource := resource, spanType := spanType,
          traceId := tr.nextId, spanId := tr.nextId + 1, parentId := none,
          sampled := tr.sampleAll, error := false, tags := [], metrics := [],
          startTime := tr.clock, duration := none, finished := false }
      (s, { tr with stack := [s], nextId := tr.nextId + 2, clock := tr.clock + 1 })
  else
    ({ name := name, service := service, resource := resource, spanType := spanType,
       traceId := 0, spanId := 0, parentId := none, sampled := false, error := false,
       tags := [], metrics := [], startTime := tr.clock, duration := none,
       finished := false }, tr)

/-- finish: stamp the duration, pop the span when it is the stack top,
otherwise remove it from wherever it sits (logging a warning), and hand the
finished span to the trace buffer.  Idempotent on finished spans, no-op when
the tracer is disabled. -/
def finish_span (tr : TracerState) (sp : Span) : TracerState :=
  if tr.enabled then
    if sp.finished then tr
    else
      let done : Span := { sp with finished := true, duration := some (tr.clock - sp.startTime) }
      match tr.stack with
      | top :: rest =>
        if top.spanId = sp.spanId then
          { tr with stack := rest, buffer := tr.buffer ++ [done], clock := tr.clock + 1 }
        else
          { tr with
            stack := tr.stack.filter (fun t => t.spanId != sp.spanId),
            buffer := tr.buffer ++ [done], logs := tr.logs ++ [oooLog],
            clock := tr.clock + 1 }
      | [] => { tr with buffer := tr.buffer ++ [done], clock := tr.clock + 1 }
  else tr

/-- Mark a span errored from an exception: error flag plus failure tag. -/
def mark_exc (sp : Span) (e : PyErr) : Span :=
  { sp with error := true, tags := setKV sp.tags errorMsgKey e.msg }

/-- Context-manager exit for the with-tracer-trace block: on an
exception the span is marked errored as part of unwinding; the span is
finished either way. -/
def span_exit (tr : TracerState) (sp : Span) (exc : Option PyErr) : TracerState :=
  match exc with
  | some e => finish_span tr (mark_exc sp e)
  | none => finish_span tr sp

/-! ## requests instrumentation (translated from ddtrace/contrib/requests/patch.py) -/

/-- Model of _apply_tags from the requests patch: a urlparse/upper failure inside the
inner try is swallowed; the method and url tags are always set; status code
and the 500-threshold error flag are set only when a response is present.
Returns the span together with the exception the step raised, if any. -/
def apply_tags (sp : Span) (method url : PyVal) (response : Option PyVal) :
    Span × Option PyErr :=
  let sp1 :=
    match urlparsePy url with
    | .error _ => sp
    | .ok parsed =>
      let spA := { sp with service := parsed.netloc }
      match strUpperPy method with
      | .error _ => spA
      | .ok m => { spA with resource := m ++ (32 :: parsed.upath) }
  let sp2 := { sp1 with
    tags := setKV (setKV sp1.tags httpMethodKey (pyStr method)) httpUrlKey (pyStr url) }
  match response with
  | none => (sp2, none)
  | some r =>
    match statusCodePy r with
    | .error e => (sp2, some e)
    | .ok code =>
      ({ sp2 with
         tags := setKV sp2.tags httpStatusKey (intBytes code),
         error := decide (500 ≤ code) }, none)

/-- Append the tag-failure log line when applying tags raised. -/
def logTagError (tr : TracerState) : Option PyErr → TracerState
  | some _ => { tr with logs := tr.logs ++ [tagErrLog] }
  | none => tr

/-- Model of _traced_request_func from the requests patch: bail out when the tracer is
disabled; otherwise run the wrapped call inside a span, apply tags in the
finally block catching any tagging failure, and let the context manager
finish the span (marking it errored when the call raised).  The wrapped
outcome is given as the Except value the call produced. -/
def traced_request_func (tr : TracerState) (method url : PyVal)
    (outcome : Except PyErr PyVal) : Except PyErr PyVal × TracerState :=
  if tr.enabled then
    let st := start_span tr requestsName [] [] httpType
    match outcome with
    | .ok r =>
      let ta := apply_tags st.1 method url (some r)
      (.ok r, span_exit (logTagError st.2 ta.2) ta.1 none)
    | .error e =>
      let ta := apply_tags st.1 method url none
      (.error e, span_exit (logTagError st.2 ta.2) ta.1 (some e))
  else (outcome, tr)

/-! ## aiobotocore lambda Invoke instrumentation (modelled from the spec)

Modelled from the spec: the aiobotocore patch is not under src.  Per the
spec and its tests: a span is started and tagged per call; when distributed
tracing is enabled for the integration the context is injected into the
ClientContext parameter before the call; the analytics sample rate, when the
integration enables analytics, is stamped as a metric at span-finish time;
a wrapped-call failure is re-raised with the span marked errored. -/

/-- Per-integration configuration surface. -/
structure AwsCfg where
  distributedTracing : Bool
  analyticsEnabled : Bool
  analyticsSampleRate : Rat
deriving DecidableEq

/-- Parameters of a lambda Invoke call. -/
structure InvokeParams where
  clientContext : Option (List Nat)
  payload : List Nat
deriving DecidableEq

/-- Stamp the analytics sample-rate metric when the integration enables it. -/
def stampAnalytics (cfg : AwsCfg) (sp : Span) : Span :=
  if cfg.analyticsEnabled then
    { sp with metrics := setKV sp.metrics analyticsKey cfg.analyticsSampleRate }
  else sp

/-- The instrumented lambda Invoke call: start a span, inject context into
the ClientContext parameter when distributed tracing is on, tag the span,
stamp analytics, and finish the span whether the call succeeded or raised;
the outcome is returned to the caller unchanged. -/
def process_invoke (cfg : AwsCfg) (tr : TracerState) (p : InvokeParams)
    (outcome : Except PyErr PyVal) :
    Except PyErr PyVal × TracerState × InvokeParams :=
  if tr.enabled then
    let st := start_span tr lambdaCmdName awsLambdaSvc lambdaInvokeRes httpType
    let p2 :=
      if cfg.distributedTracing then
        { p with clientContext := injectClientContext p.clientContext st.1.traceId st.1.spanId }
      else p
    let sp1 := { st.1 with tags := setKV st.1.tags awsOperationKey invokeName }
    match outcome with
    | .ok r =>
      let sp2 :=
        match statusCodePy r with
        | .ok code =>
          { sp1 with
            tags := setKV sp1.tags httpStatusKey (intBytes code),
            error := decide (500 ≤ code) }
        | .error _ => sp1
      (.ok r, span_exit st.2 (stampAnalytics cfg sp2) none, p2)
    | .error e =>
      (.error e, span_exit st.2 (stampAnalytics cfg sp1) (some e), p2)
  else (outcome, tr, p)

/-! ## Shape lemmas for the requests wrapper -/

/-- The response value handed to the tag-application step, per outcome. -/
def respOf : Except PyErr PyVal → Option PyVal
  | .ok r => some r
  | .error _ => none

theorem apply_tags_none (sp : Span) (m u : PyVal) :
    ∃ sv rs, apply_tags sp m u none =
      ({ sp with
         service := sv, resource := rs,
         tags := setKV (setKV sp.tags httpMethodKey (pyStr m)) httpUrlKey (pyStr u) },
       none) := by
  match hu : urlparsePy u with
  | .error e => exact ⟨sp.service, sp.resource, by simp [apply_tags, hu]⟩
  | .ok parsed =>
    match hm : strUpperPy m with
    | .error e => exact ⟨parsed.netloc, sp.resource, by simp [apply_tags, hu, hm]⟩
    | .ok mm =>
      exact ⟨parsed.netloc, mm ++ (32 :: parsed.upath), by simp [apply_tags, hu, hm]⟩

theorem apply_tags_resp (sp : Span) (m u : PyVal) (r : PyVal) (code : Int)
    (h : statusCodePy r = .ok code) :
    ∃ sv rs, apply_tags sp m u (some r) =
      ({ sp with
         service := sv, resource := rs,
         tags := setKV (setKV (setKV sp.tags httpMethodKey (pyStr m)) httpUrlKey (pyStr u))
           httpStatusKey (intBytes code),
         error := decide (500 ≤ code) }, none) := by
  match hu : urlparsePy u with
  | .error e0 => exact ⟨sp.service, sp.resource, by simp [apply_tags, hu, h]⟩
  | .ok parsed =>
    match hm : strUpperPy m with
    | .error e0 => exact ⟨parsed.netloc, sp.resource, by simp [apply_tags, hu, hm, h]⟩
    | .ok mm =>
      exact ⟨parsed.netloc, mm ++ (32 :: parsed.upath), by simp [apply_tags, hu, hm, h]⟩

theorem apply_tags_resp_err (sp : Span) (m u : PyVal) (r : PyVal) (e : PyErr)
    (h : statusCodePy r = .error e) :
    ∃ sv rs, apply_tags sp m u (some r) =
      ({ sp with
         service := sv, resource := rs,
         tags := setKV (setKV sp.tags httpMethodKey (pyStr m)) httpUrlKey (pyStr u) },
       some e) := by
  match hu : urlparsePy u with
  | .error e0 => exact ⟨sp.service, sp.resource, by simp [apply_tags, hu, h]⟩
  | .ok parsed =>
    match hm : strUpperPy m with
    | .error e0 => exact ⟨parsed.netloc, sp.resource, by simp [apply_tags, hu, hm, h]⟩
    | .ok mm =>
      exact ⟨parsed.netloc, mm ++ (32 :: parsed.upath), by simp [apply_tags, hu, hm, h]⟩

theorem start_span_shape (tr : TracerState) (hen : tr.enabled = true)
    (n s r t : List Nat) :
    ((start_span tr n s r t).2).stack = (start_span tr n s r t).1 :: tr.stack ∧
    ((start_span tr n s r t).2).enabled = true ∧
    ((start_span tr n s r t).2).buffer = tr.buffer ∧
    ((start_span tr n s r t).2).logs = tr.logs ∧
    (start_span tr n s r t).1.finished = false ∧
    (start_span tr n s r t).1.tags = [] ∧
    (start_span tr n s r t).1.metrics = [] ∧
    (start_span tr n s r t).1.name = n := by
  cases hst : tr.stack with
  | nil => simp [start_span, hen, hst]
  | cons top rest => simp [start_span, hen, hst]

theorem finish_top (tr : TracerState) (sp top : Span) (rest : List Span)
    (hen : tr.enabled = true) (hst : tr.stack = top :: rest)
    (hid : sp.spanId = top.spanId) (hfin : sp.finished = false) :
    finish_span tr sp =
      { tr with
        stack := rest,
        buffer := tr.buffer ++
          [{ sp with finished := true, duration := some (tr.clock - sp.startTime) }],
        clock := tr.clock + 1 } := by
  simp [finish_span, hen, hst, hfin, hid]

/-! ## Claim theorems -/

/-- C10: in the requests adapter's tag application, with a response carrying
a status code the status-code tag is written and the error flag is set if
and only if the code is at least 500; with no response (as after a raised
exception) neither the status-code tag nor the error flag is touched. -/
theorem apply_tags_status_semantics (sp : Span) (m u : PyVal) (r : PyVal) (code : Int)
    (h : statusCodePy r = .ok code) :
    (lookupKV (apply_tags sp m u (some r)).1.tags httpStatusKey = some (intBytes code) ∧
      ((apply_tags sp m u (some r)).1.error = true ↔ 500 ≤ code)) ∧
    ((apply_tags sp m u none).1.error = sp.error ∧
      lookupKV (apply_tags sp m u none).1.tags httpStatusKey =
        lookupKV sp.tags httpStatusKey) := by
  have hsu : httpStatusKey ≠ httpUrlKey := by decide
  have hsm : httpStatusKey ≠ httpMethodKey := by decide
  obtain ⟨sv, rs, hresp⟩ := apply_tags_resp sp m u r code h
  obtain ⟨sv2, rs2, hnone⟩ := apply_tags_none sp m u
  rw [hresp, hnone]
  refine ⟨⟨?_, ?_⟩, rfl, ?_⟩
  · exact lookupKV_setKV_self _ _ _
  · simp
  · rw [lookupKV_setKV_other _ _ _ _ hsu, lookupKV_setKV_other _ _ _ _ hsm]

/-- Fixed span used by concrete witnesses. -/
def spW : Span :=
  { name := requestsName, service := [], resource := [], spanType := httpType,
    traceId := 1, spanId := 2, parentId := none, sampled := true, error := false,
    tags := [], metrics := [], startTime := 0, duration := none, finished := false }

/-- Byte string of the text get, used by concrete witnesses. -/
def methodW : PyVal := PyVal.pystr [103, 101, 116]

/-- Bytes of an http URL, used by concrete witnesses. -/
def urlW : PyVal :=
  PyVal.pystr [104, 116, 116, 112, 58, 47, 47, 101, 120, 97, 109, 112, 108, 101, 46, 99, 111, 109, 47, 112]

theorem apply_tags_status_semantics_witness :
    statusCodePy (PyVal.presp (some 404)) = .ok 404 ∧
    ((lookupKV (apply_tags spW methodW urlW (some (PyVal.presp (some 404)))).1.tags
        httpStatusKey = some (intBytes 404) ∧
      ((apply_tags spW methodW urlW (some (PyVal.presp (some 404)))).1.error = true ↔
        (500 : Int) ≤ 404)) ∧
    ((apply_tags spW methodW urlW none).1.error = spW.error ∧
      lookupKV (apply_tags spW methodW urlW none).1.tags httpStatusKey =
        lookupKV spW.tags httpStatusKey)) :=
  ⟨rfl, apply_tags_status_semantics spW methodW urlW (PyVal.presp (some 404)) 404 rfl⟩

/-- Fresh enabled tracer used by concrete witnesses. -/
def trOn : TracerState :=
  { enabled := true, sampleAll := true, nextId := 1, clock := 0, stack := [],
    buffer := [], logs := [] }

/-- Disabled tracer used by concrete witnesses. -/
def trOff : TracerState :=
  { enabled := false, sampleAll := true, nextId := 1, clock := 0, stack := [],
    buffer := [], logs := [] }

/-- C6: any exception raised while computing or applying tags (for any
method, url, and response value passed to the tag-application step) is
caught and logged inside the wrapper and never propagates; the wrapped
operation's outcome is returned unchanged. -/
theorem tagging_failure_contained (tr : TracerState) (method url : PyVal)
    (outcome : Except PyErr PyVal) :
    (traced_request_func tr method url outcome).1 = outcome ∧
    (tr.enabled = true →
      ∀ e, (apply_tags (start_span tr requestsName [] [] httpType).1 method url
          (respOf outcome)).2 = some e →
        (traced_request_func tr method url outcome).2.logs = tr.logs ++ [tagErrLog]) := by
  by_cases hen : tr.enabled = true
  · obtain ⟨hstk, hen2, hbuf, hlogs, hfin, htags, hmet, hname⟩ :=
      start_span_shape tr hen requestsName [] [] httpType
    constructor
    · cases outcome with
      | ok r => simp [traced_request_func, hen]
      | error e0 => simp [traced_request_func, hen]
    · intro _ e hta
      cases outcome with
      | ok r =>
        simp only [respOf] at hta
        match hr : statusCodePy r with
        | .ok code =>
          obtain ⟨sv, rs, hok⟩ :=
            apply_tags_resp (start_span tr requestsName [] [] httpType).1 method url r code hr
          rw [hok] at hta
          simp at hta
        | .error e1 =>
          obtain ⟨sv, rs, herr⟩ :=
            apply_tags_resp_err (start_span tr requestsName [] [] httpType).1 method url r e1 hr
          have h2 : (apply_tags (start_span tr requestsName [] [] httpType).1 method url
              (some r)).2 = some e1 := by rw [herr]
          have hid : (apply_tags (start_span tr requestsName [] [] httpType).1 method url
              (some r)).1.spanId = (start_span tr requestsName [] [] httpType).1.spanId := by
            rw [herr]
          have hfin2 : (apply_tags (start_span tr requestsName [] [] httpType).1 method url
              (some r)).1.finished = false := by
            rw [herr]
            exact hfin
          simp only [traced_request_func, if_pos hen]
          rw [h2]
          simp only [logTagError, span_exit]
          rw [finish_top _ _ (start_span tr requestsName [] [] httpType).1 tr.stack
            (by simpa using hen2) (by simpa using hstk) hid hfin2]
          simpa using hlogs
      | error e0 =>
        simp only [respOf] at hta
        obtain ⟨sv, rs, hnone⟩ :=
          apply_tags_none (start_span tr requestsName [] [] httpType).1 method url
        rw [hnone] at hta
        simp at hta
  · constructor
    · simp [traced_request_func, hen]
    · intro h
      exact absurd h hen

theorem tagging_failure_contained_witness :
    (traced_request_func trOn methodW urlW (.ok (PyVal.presp none))).1 =
      .ok (PyVal.presp none) ∧
    (traced_request_func trOn methodW urlW (.ok (PyVal.presp none))).2.logs =
      trOn.logs ++ [tagErrLog] :=
  ⟨(tagging_failure_contained trOn methodW urlW (.ok (PyVal.presp none))).1,
   (tagging_failure_contained trOn methodW urlW (.ok (PyVal.presp none))).2 rfl
     attrError rfl⟩

/-- C1: when the wrapped operation raises, the exception propagates to the
caller unchanged, and the span is nevertheless finished into the trace
buffer with its error flag set and the failure message captured in a tag. -/
theorem wrapped_error_propagates (tr : TracerState) (method url : PyVal) (e : PyErr)
    (hen : tr.enabled = true) :
    (traced_request_func tr method url (.error e)).1 = .error e ∧
    ∃ sp, (traced_request_func tr method url (.error e)).2.buffer = tr.buffer ++ [sp] ∧
      sp.error = true ∧ lookupKV sp.tags errorMsgKey = some e.msg ∧
      sp.finished = true := by
  obtain ⟨hstk, hen2, hbuf, hlogs, hfin, htags, hmet, hname⟩ :=
    start_span_shape tr hen requestsName [] [] httpType
  obtain ⟨sv, rs, hnone⟩ :=
    apply_tags_none (start_span tr requestsName [] [] httpType).1 method url
  constructor
  · simp [traced_request_func, hen]
  · have h2 : (apply_tags (start_span tr requestsName [] [] httpType).1 method url
        none).2 = none := by rw [hnone]
    have hid : (mark_exc (apply_tags (start_span tr requestsName [] [] httpType).1 method url
        none).1 e).spanId = (start_span tr requestsName [] [] httpType).1.spanId := by
      simp only [mark_exc]
      rw [hnone]
    have hfin2 : (mark_exc (apply_tags (start_span tr requestsName [] [] httpType).1 method url
        none).1 e).finished = false := by
      simp only [mark_exc]
      rw [hnone]
      exact hfin
    simp only [traced_request_func, if_pos hen]
    rw [h2]
    simp only [logTagError, span_exit]
    rw [finish_top _ _ (start_span tr requestsName [] [] httpType).1 tr.stack
      hen2 hstk hid hfin2, hbuf]
    exact ⟨_, rfl, by simp [mark_exc], by
      simp only [mark_exc]
      exact lookupKV_setKV_self _ _ _, rfl⟩

/-- Failure message used by the concrete error witness. -/
def boomErr : PyErr := { msg := [78, 111, 83, 117, 99, 104, 66, 117, 99, 107, 101, 116] }

theorem wrapped_error_propagates_witness :
    trOn.enabled = true ∧
    ((traced_request_func trOn methodW urlW (.error boomErr)).1 = .error boomErr ∧
    ∃ sp, (traced_request_func trOn methodW urlW (.error boomErr)).2.buffer =
        trOn.buffer ++ [sp] ∧
      sp.error = true ∧ lookupKV sp.tags errorMsgKey = some boomErr.msg ∧
      sp.finished = true) :=
  ⟨rfl, wrapped_error_propagates trOn methodW urlW boomErr rfl⟩

/-- C4: start_span without an explicit parent makes the new span a child of
the active span (parent id is the active span id, trace id inherited); when
the span finishes, the active pointer re-parents to the finished span's
parent, so a subsequently started sibling is parented to the outer span. -/
theorem active_stack_parenting (tr : TracerState) (A : Span) (rest : List Span)
    (hen : tr.enabled = true) (hst : tr.stack = A :: rest)
    (n1 s1 r1 t1 n2 s2 r2 t2 : List Nat) :
    (start_span tr n1 s1 r1 t1).1.parentId = some A.spanId ∧
    (start_span tr n1 s1 r1 t1).1.traceId = A.traceId ∧
    (finish_span (start_span tr n1 s1 r1 t1).2 (start_span tr n1 s1 r1 t1).1).stack =
      A :: rest ∧
    (start_span (finish_span (start_span tr n1 s1 r1 t1).2 (start_span tr n1 s1 r1 t1).1)
      n2 s2 r2 t2).1.parentId = some A.spanId := by
  simp [start_span, finish_span, hen, hst]

/-- Span with one active ancestor, used by the concrete parenting witness. -/
def spanA : Span := (start_span trOn requestsName [] [] httpType).1

/-- Tracer state with one active span, used by the concrete parenting witness. -/
def trA : TracerState := (start_span trOn requestsName [] [] httpType).2

theorem active_stack_parenting_witness :
    trA.enabled = true ∧ trA.stack = spanA :: [] ∧
    ((start_span trA httpType [] [] httpType).1.parentId = some spanA.spanId ∧
    (start_span trA httpType [] [] httpType).1.traceId = spanA.traceId ∧
    (finish_span (start_span trA httpType [] [] httpType).2
      (start_span trA httpType [] [] httpType).1).stack = spanA :: [] ∧
    (start_span (finish_span (start_span trA httpType [] [] httpType).2
      (start_span trA httpType [] [] httpType).1)
      httpType [] [] httpType).1.parentId = some spanA.spanId) :=
  ⟨rfl, rfl,
   active_stack_parenting trA spanA [] rfl rfl httpType [] [] httpType httpType [] [] httpType⟩

/-- C8: with the tracer disabled, start_span still returns a span-shaped
value but does no bookkeeping (state unchanged, so the Trace Buffer gains
zero entries and no propagation data is emitted), and the instrumented
wrappers return the wrapped operation's outcome exactly, with the outbound
parameters untouched. -/
theorem disabled_tracer_noop (tr : TracerState) (hen : tr.enabled = false)
    (n s r t : List Nat) (method url : PyVal) (outcome : Except PyErr PyVal)
    (cfg : AwsCfg) (p : InvokeParams) :
    (start_span tr n s r t).2 = tr ∧
    (start_span tr n s r t).1.name = n ∧
    traced_request_func tr method url outcome = (outcome, tr) ∧
    process_invoke cfg tr p outcome = (outcome, tr, p) := by
  refine ⟨?_, ?_, ?_, ?_⟩ <;>
    simp [start_span, traced_request_func, process_invoke, hen]

/-- Integration configuration used by concrete witnesses. -/
def cfgW : AwsCfg :=
  { distributedTracing := true, analyticsEnabled := true, analyticsSampleRate := 1 / 2 }

/-- Invoke parameters with no client context, used by concrete witnesses. -/
def pW : InvokeParams := { clientContext := none, payload := [] }

theorem disabled_tracer_noop_witness :
    trOff.enabled = false ∧
    ((start_span trOff requestsName [] [] httpType).2 = trOff ∧
    (start_span trOff requestsName [] [] httpType).1.name = requestsName ∧
    traced_request_func trOff methodW urlW (.ok (PyVal.presp (some 200))) =
      (.ok (PyVal.presp (some 200)), trOff) ∧
    process_invoke cfgW trOff pW (.ok (PyVal.presp (some 200))) =
      (.ok (PyVal.presp (some 200)), trOff, pW)) :=
  ⟨rfl, disabled_tracer_noop trOff rfl requestsName [] [] httpType methodW urlW
    (.ok (PyVal.presp (some 200))) cfgW pW⟩

/-- C9: the span produced by the instrumented invoke call carries the
analytics sample-rate metric exactly equal to the configured rate when
analytics is enabled for the integration, and no such metric when it is
not; the metric is in place by span-finish time (it is read off the span
handed to the trace buffer). -/
theorem analytics_rate_stamped (cfg : AwsCfg) (tr : TracerState) (p : InvokeParams)
    (outcome : Except PyErr PyVal) (hen : tr.enabled = true) :
    ∃ sp, (process_invoke cfg tr p outcome).2.1.buffer = tr.buffer ++ [sp] ∧
      sp.finished = true ∧
      lookupKV sp.metrics analyticsKey =
        (if cfg.analyticsEnabled then some cfg.analyticsSampleRate else none) := by
  obtain ⟨hstk, hen2, hbuf, hlogs, hfin, htags, hmet, hname⟩ :=
    start_span_shape tr hen lambdaCmdName awsLambdaSvc lambdaInvokeRes httpType
  cases outcome with
  | ok r =>
    simp only [process_invoke, if_pos hen]
    match hsc : statusCodePy r with
    | .ok code =>
      simp only [span_exit]
      rw [finish_top _ _
        (start_span tr lambdaCmdName awsLambdaSvc lambdaInvokeRes httpType).1 tr.stack hen2 hstk
        (by by_cases han : cfg.analyticsEnabled = true <;> simp [stampAnalytics, han])
        (by by_cases han : cfg.analyticsEnabled = true <;> simp [stampAnalytics, han, hfin]),
        hbuf]
      refine ⟨_, rfl, rfl, ?_⟩
      by_cases han : cfg.analyticsEnabled = true <;>
        simp [stampAnalytics, han, lookupKV_setKV_self, hmet, lookupKV]
    | .error e1 =>
      simp only [span_exit]
      rw [finish_top _ _
        (start_span tr lambdaCmdName awsLambdaSvc lambdaInvokeRes httpType).1 tr.stack hen2 hstk
        (by by_cases han : cfg.analyticsEnabled = true <;> simp [stampAnalytics, han])
        (by by_cases han : cfg.analyticsEnabled = true <;> simp [stampAnalytics, han, hfin]),
        hbuf]
      refine ⟨_, rfl, rfl, ?_⟩
      by_cases han : cfg.analyticsEnabled = true <;>
        simp [stampAnalytics, han, lookupKV_setKV_self, hmet, lookupKV]
  | error e =>
    simp only [process_invoke, if_pos hen]
    simp only [span_exit]
    rw [finish_top _ _
      (start_span tr lambdaCmdName awsLambdaSvc lambdaInvokeRes httpType).1 tr.stack hen2 hstk
      (by by_cases han : cfg.analyticsEnabled = true <;> simp [stampAnalytics, mark_exc, han])
      (by by_cases han : cfg.analyticsEnabled = true <;>
        simp [stampAnalytics, mark_exc, han, hfin]),
      hbuf]
    refine ⟨_, rfl, rfl, ?_⟩
    by_cases han : cfg.analyticsEnabled = true <;>
      simp [stampAnalytics, mark_exc, han, lookupKV_setKV_self, hmet, lookupKV]

theorem analytics_rate_stamped_witness :
    trOn.enabled = true ∧
    ∃ sp, (process_invoke cfgW trOn pW (.ok (PyVal.presp (some 202)))).2.1.buffer =
        trOn.buffer ++ [sp] ∧
      sp.finished = true ∧
      lookupKV sp.metrics analyticsKey =
        (if cfgW.analyticsEnabled then some cfgW.analyticsSampleRate else none) :=
  ⟨rfl, analytics_rate_stamped cfgW trOn pW (.ok (PyVal.presp (some 202))) rfl⟩

theorem stampAnalytics_tags (cfg : AwsCfg) (sp : Span) :
    (stampAnalytics cfg sp).tags = sp.tags := by
  by_cases han : cfg.analyticsEnabled = true <;> simp [stampAnalytics, han]

theorem stampAnalytics_spanId (cfg : AwsCfg) (sp : Span) :
    (stampAnalytics cfg sp).spanId = sp.spanId := by
  by_cases han : cfg.analyticsEnabled = true <;> simp [stampAnalytics, han]

theorem stampAnalytics_finished (cfg : AwsCfg) (sp : Span) :
    (stampAnalytics cfg sp).finished = sp.finished := by
  by_cases han : cfg.analyticsEnabled = true <;> simp [stampAnalytics, han]

/-- C7: with distributed tracing disabled for the integration, injection is
skipped entirely — the outbound parameters (the ClientContext field in
particular) are returned unchanged — while the span is still created,
tagged with the operation, and finished into the trace buffer, and the
wrapped outcome is returned to the caller. -/
theorem distributed_tracing_off_skips_injection (cfg : AwsCfg) (tr : TracerState)
    (p : InvokeParams) (outcome : Except PyErr PyVal)
    (hen : tr.enabled = true) (hdt : cfg.distributedTracing = false) :
    (process_invoke cfg tr p outcome).2.2 = p ∧
    (process_invoke cfg tr p outcome).1 = outcome ∧
    ∃ sp, (process_invoke cfg tr p outcome).2.1.buffer = tr.buffer ++ [sp] ∧
      sp.finished = true ∧ lookupKV sp.tags awsOperationKey = some invokeName := by
  obtain ⟨hstk, hen2, hbuf, hlogs, hfin, htags, hmet, hname⟩ :=
    start_span_shape tr hen lambdaCmdName awsLambdaSvc lambdaInvokeRes httpType
  have hop1 : awsOperationKey ≠ httpStatusKey := by decide
  have hop2 : awsOperationKey ≠ errorMsgKey := by decide
  refine ⟨?_, ?_, ?_⟩
  · cases outcome with
    | ok r => simp [process_invoke, hen, hdt]
    | error e => simp [process_invoke, hen, hdt]
  · cases outcome with
    | ok r => simp [process_invoke, hen]
    | error e => simp [process_invoke, hen]
  · cases outcome with
    | ok r =>
      simp only [process_invoke, if_pos hen]
      match hsc : statusCodePy r with
      | .ok code =>
        simp only [span_exit]
        rw [finish_top _ _
          (start_span tr lambdaCmdName awsLambdaSvc lambdaInvokeRes httpType).1 tr.stack
          hen2 hstk (by simp [stampAnalytics_spanId])
          (by simp [stampAnalytics_finished, hfin]), hbuf]
        refine ⟨_, rfl, rfl, ?_⟩
        simp only [stampAnalytics_tags]
        rw [lookupKV_setKV_other _ _ _ _ hop1, lookupKV_setKV_self]
      | .error e1 =>
        simp only [span_exit]
        rw [finish_top _ _
          (start_span tr lambdaCmdName awsLambdaSvc lambdaInvokeRes httpType).1 tr.stack
          hen2 hstk (by simp [stampAnalytics_spanId])
          (by simp [stampAnalytics_finished, hfin]), hbuf]
        refine ⟨_, rfl, rfl, ?_⟩
        simp only [stampAnalytics_tags]
        exact lookupKV_setKV_self _ _ _
    | error e =>
      simp only [process_invoke, if_pos hen, span_exit]
      rw [finish_top _ _
        (start_span tr lambdaCmdName awsLambdaSvc lambdaInvokeRes httpType).1 tr.stack
        hen2 hstk (by simp [mark_exc, stampAnalytics_spanId])
        (by simp [mark_exc, stampAnalytics_finished, hfin]), hbuf]
      refine ⟨_, rfl, rfl, ?_⟩
      simp only [mark_exc, stampAnalytics_tags]
      rw [lookupKV_setKV_other _ _ _ _ hop2]
      exact lookupKV_setKV_self _ _ _

/-- Configuration with distributed tracing disabled, used by witnesses. -/
def cfgNoDT : AwsCfg :=
  { distributedTracing := false, analyticsEnabled := false, analyticsSampleRate := 0 }

theorem distributed_tracing_off_skips_injection_witness :
    trOn.enabled = true ∧ cfgNoDT.distributedTracing = false ∧
    ((process_invoke cfgNoDT trOn pW (.ok (PyVal.presp (some 202)))).2.2 = pW ∧
    (process_invoke cfgNoDT trOn pW (.ok (PyVal.presp (some 202)))).1 =
      .ok (PyVal.presp (some 202)) ∧
    ∃ sp, (process_invoke cfgNoDT trOn pW (.ok (PyVal.presp (some 202)))).2.1.buffer =
        trOn.buffer ++ [sp] ∧
      sp.finished = true ∧ lookupKV sp.tags awsOperationKey = some invokeName) :=
  ⟨rfl, rfl, distributed_tracing_off_skips_injection cfgNoDT trOn pW
    (.ok (PyVal.presp (some 202))) rfl rfl⟩

/-- C3: a malformed embedded client context fails to decode; extraction
swallows the failure and yields no inbound context; the instrumented call
still completes (outcome returned, span produced and finished) and the
malformed field is passed through unchanged — no error reaches the caller. -/
theorem malformed_context_is_absent (field msg : List Nat) (cfg : AwsCfg)
    (tr : TracerState) (p : InvokeParams) (r : PyVal)
    (hdec : decodeClientContextE field = .error msg) (hen : tr.enabled = true) :
    extractContext (some field) = none ∧
    (process_invoke cfg tr { p with clientContext := some field } (.ok r)).1 = .ok r ∧
    (process_invoke cfg tr { p with clientContext := some field }
      (.ok r)).2.2.clientContext = some field ∧
    ∃ sp, (process_invoke cfg tr { p with clientContext := some field }
        (.ok r)).2.1.buffer = tr.buffer ++ [sp] ∧ sp.finished = true := by
  obtain ⟨hstk, hen2, hbuf, hlogs, hfin, htags, hmet, hname⟩ :=
    start_span_shape tr hen lambdaCmdName awsLambdaSvc lambdaInvokeRes httpType
  refine ⟨?_, ?_, ?_, ?_⟩
  · simp [extractContext, hdec]
  · simp [process_invoke, hen]
  · by_cases hdt : cfg.distributedTracing = true <;>
      simp [process_invoke, hen, hdt, injectClientContext, hdec]
  · simp only [process_invoke, if_pos hen]
    match hsc : statusCodePy r with
    | .ok code =>
      simp only [span_exit]
      rw [finish_top _ _
        (start_span tr lambdaCmdName awsLambdaSvc lambdaInvokeRes httpType).1 tr.stack
        hen2 hstk (by simp [stampAnalytics_spanId])
        (by simp [stampAnalytics_finished, hfin]), hbuf]
      exact ⟨_, rfl, rfl⟩
    | .error e1 =>
      simp only [span_exit]
      rw [finish_top _ _
        (start_span tr lambdaCmdName awsLambdaSvc lambdaInvokeRes httpType).1 tr.stack
        hen2 hstk (by simp [stampAnalytics_spanId])
        (by simp [stampAnalytics_finished, hfin]), hbuf]
      exact ⟨_, rfl, rfl⟩

/-- The malformed ClientContext string from the bad-context test. -/
def badCtx : List Nat := [98, 97, 100, 95, 99, 108, 105, 101, 110, 116, 95, 99, 111, 110, 116, 101, 120, 116]

theorem malformed_context_is_absent_witness :
    decodeClientContextE badCtx = .error b64ErrBytes ∧
    (extractContext (some badCtx) = none ∧
    (process_invoke cfgW trOn { pW with clientContext := some badCtx }
      (.ok (PyVal.presp (some 202)))).1 = .ok (PyVal.presp (some 202)) ∧
    (process_invoke cfgW trOn { pW with clientContext := some badCtx }
      (.ok (PyVal.presp (some 202)))).2.2.clientContext = some badCtx ∧
    ∃ sp, (process_invoke cfgW trOn { pW with clientContext := some badCtx }
        (.ok (PyVal.presp (some 202)))).2.1.buffer = trOn.buffer ++ [sp] ∧
      sp.finished = true) :=
  ⟨rfl, malformed_context_is_absent badCtx b64ErrBytes cfgW trOn pW
    (PyVal.presp (some 202)) rfl rfl⟩

/-- C2: for every context injected by the payload propagator into a lambda
ClientContext field (over no pre-existing payload or any well-formed one),
decoding the field — base64-decode, JSON-parse, read the reserved _datadog
entry inside the custom object as base-10 string-encoded integers —
recovers exactly the original trace id and parent span id. -/
theorem payload_roundtrip (tid pid : Nat) (pre : Option Json)
    (hwf : ∀ j, pre = some j → jwfJ j = true) :
    ∃ field, injectClientContext (pre.map encodeClientContext) tid pid = some field ∧
      (decodeClientContext field).bind readDatadogIds = some (tid, pid) := by
  match pre with
  | none =>
    refine ⟨encodeClientContext (mergeDatadog (.obj JMembers.nil) tid pid), rfl, ?_⟩
    have hm : jwfJ (mergeDatadog (.obj JMembers.nil) tid pid) = true :=
      jwfJ_mergeDatadog _ tid pid (by rfl)
    rw [decodeClientContext_encode _ hm]
    simp [readDatadogIds_mergeDatadog]
  | some j =>
    have hj := hwf j rfl
    refine ⟨encodeClientContext (mergeDatadog j tid pid), ?_, ?_⟩
    · simp [injectClientContext, decodeClientContextE_encode j hj]
    · rw [decodeClientContext_encode _ (jwfJ_mergeDatadog j tid pid hj)]
      simp [readDatadogIds_mergeDatadog]

theorem payload_roundtrip_witness :
    ∃ field, injectClientContext ((none : Option Json).map encodeClientContext) 1234 567 =
        some field ∧
      (decodeClientContext field).bind readDatadogIds = some (1234, 567) :=
  payload_roundtrip 1234 567 none (fun _ h => Option.noConfusion h)

/-- C5: injection into a caller payload that already carries unrelated keys
preserves every pre-existing key and its value unchanged — at top level and
inside the custom object — adding only the reserved _datadog entry; the
re-encoded field decodes to exactly that merged object. -/
theorem injection_preserves_keys (m c : JMembers) (tid pid : Nat) (k k2 : List Nat)
    (hwf : jwfJ (.obj m) = true)
    (hcustom : objLookup customKey m = some (.obj c))
    (hk : k ≠ customKey) (hk2 : k2 ≠ datadogKey) :
    injectClientContext (some (encodeClientContext (.obj m))) tid pid =
      some (encodeClientContext (.obj (msetKey customKey
        (.obj (msetKey datadogKey (.obj (ddHeaders tid pid)) c)) m))) ∧
    decodeClientContext (encodeClientContext (.obj (msetKey customKey
        (.obj (msetKey datadogKey (.obj (ddHeaders tid pid)) c)) m))) =
      some (.obj (msetKey customKey
        (.obj (msetKey datadogKey (.obj (ddHeaders tid pid)) c)) m)) ∧
    objLookup k (msetKey customKey
      (.obj (msetKey datadogKey (.obj (ddHeaders tid pid)) c)) m) = objLookup k m ∧
    objLookup k2 (msetKey datadogKey (.obj (ddHeaders tid pid)) c) = objLookup k2 c ∧
    objLookup datadogKey (msetKey datadogKey (.obj (ddHeaders tid pid)) c) =
      some (.obj (ddHeaders tid pid)) := by
  have hwm : jwfM m = true := by simpa [jwfJ] using hwf
  have hcwf : jwfM c = true := by
    have := jwfM_objLookup customKey m (.obj c) hwm hcustom
    simpa [jwfJ] using this
  have hmerged : jwfJ (.obj (msetKey customKey
      (.obj (msetKey datadogKey (.obj (ddHeaders tid pid)) c)) m)) = true := by
    show jwfM _ = true
    refine jwfM_msetKey _ _ _ hwm (by decide) ?_
    show jwfJ (.obj (msetKey datadogKey (.obj (ddHeaders tid pid)) c)) = true
    show jwfM (msetKey datadogKey (.obj (ddHeaders tid pid)) c) = true
    refine jwfM_msetKey _ _ _ hcwf (by decide) ?_
    show jwfM (ddHeaders tid pid) = true
    exact jwfM_ddHeaders tid pid
  have hmerge : mergeDatadog (.obj m) tid pid =
      .obj (msetKey customKey
        (.obj (msetKey datadogKey (.obj (ddHeaders tid pid)) c)) m) := by
    rw [mergeDatadog, hcustom]
  refine ⟨?_, ?_, ?_, ?_, ?_⟩
  · simp only [injectClientContext, decodeClientContextE_encode (.obj m) hwf, hmerge]
  · exact decodeClientContext_encode _ hmerged
  · exact objLookup_msetKey_other _ _ _ _ hk
  · exact objLookup_msetKey_other _ _ _ _ hk2
  · exact objLookup_msetKey_self _ _ _

/-- Byte string foo, used by the key-preservation witness. -/
def fooKey : List Nat := [102, 111, 111]

/-- Byte string bar, used by the key-preservation witness. -/
def barStr : List Nat := [98, 97, 114]

/-- The caller's custom object carrying foo = bar. -/
def cW : JMembers := JMembers.cons fooKey (Json.str barStr) JMembers.nil

/-- The caller's client-context object carrying the custom object. -/
def mW : JMembers := JMembers.cons customKey (Json.obj cW) JMembers.nil

theorem injection_preserves_keys_witness :
    jwfJ (.obj mW) = true ∧ objLookup customKey mW = some (.obj cW) ∧
    (injectClientContext (some (encodeClientContext (.obj mW))) 9 8 =
      some (encodeClientContext (.obj (msetKey customKey
        (.obj (msetKey datadogKey (.obj (ddHeaders 9 8)) cW)) mW))) ∧
    decodeClientContext (encodeClientContext (.obj (msetKey customKey
        (.obj (msetKey datadogKey (.obj (ddHeaders 9 8)) cW)) mW))) =
      some (.obj (msetKey customKey
        (.obj (msetKey datadogKey (.obj (ddHeaders 9 8)) cW)) mW)) ∧
    objLookup fooKey (msetKey customKey
      (.obj (msetKey datadogKey (.obj (ddHeaders 9 8)) cW)) mW) = objLookup fooKey mW ∧
    objLookup fooKey (msetKey datadogKey (.obj (ddHeaders 9 8)) cW) =
      objLookup fooKey cW ∧
    objLookup datadogKey (msetKey datadogKey (.obj (ddHeaders 9 8)) cW) =
      some (.obj (ddHeaders 9 8))) :=
  ⟨by decide, by decide,
   injection_preserves_keys mW cW 9 8 fooKey fooKey (by decide) (by decide)
     (by decide) (by decide)⟩

end DDTrace
